import Mathlib

/-!
Verification development for the audit-tracker editor extension.

The repository tracks manual code-audit progress: scope paths, per-file
function review state, and line notes, persisted per workspace.  The
`StateManager` service is referenced by every caller in the repository but
its own source file is not part of the source tree available here; its
operations are therefore modelled from the specification text (each such
definition carries a doc comment starting `Modelled from the spec:`).
The `ScopeManager` (scope expansion), the scope-document loader and the
add-line-note command are embedded directly from their TypeScript sources.

JavaScript string methods (`startsWith`, `trim`, `split`) are modelled as
structurally recursive functions over the character list of a `String`, so
that every definition is executable by the kernel.
-/

namespace AuditTracker

/-! ## String primitives (embedding of the JS string methods used) -/

/-- Embedding of JS `s.startsWith(p)` as a character-list check. -/
def strStartsWith (s p : String) : Bool := p.data.isPrefixOf s.data

/-- Whitespace recognised by JS `trim` (the characters that occur in this
repository's scope documents). -/
def isJsSpace (c : Char) : Bool := c == ' ' || c == '\t' || c == '\n' || c == '\r'

/-- Embedding of JS `s.trim()`: drop whitespace from both ends. -/
def strTrim (s : String) : String :=
  ⟨((s.data.dropWhile isJsSpace).reverse.dropWhile isJsSpace).reverse⟩

/-- Embedding of JS falsiness of a string: `!s` is true exactly on `""`. -/
def strIsEmpty (s : String) : Bool := s.data.isEmpty

/-- Helper for the embedding of JS `content.split("\n")`. -/
def splitLinesAux : List Char → List Char → List String
  | [], acc => [⟨acc.reverse⟩]
  | c :: cs, acc =>
      if c == '\n' then ⟨acc.reverse⟩ :: splitLinesAux cs []
      else splitLinesAux cs (c :: acc)

/-- Embedding of JS `content.split("\n")`. -/
def splitLines (s : String) : List String := splitLinesAux s.data []

/-! ## Data model (§3 of the spec; the `models/types` module is not in the
available source tree, so the shapes follow the spec and the fields the
callers in `extension.ts` and the providers actually use) -/

/-- A symbol reported by the external symbol-resolution service:
`{name, startLine, endLine}`. -/
structure FunctionSymbol where
  name : String
  startLine : Nat
  endLine : Nat
deriving DecidableEq, Repr

/-- One tracked function: stable id, name, owning file, line range and the
three independent flags. -/
structure FunctionState where
  id : String
  name : String
  filePath : String
  startLine : Nat
  endLine : Nat
  read : Bool
  reviewed : Bool
  entrypoint : Bool
deriving DecidableEq, Repr

/-- One tracked file: absolute path, workspace-relative path (display only)
and its ordered function list. -/
structure ScopedFile where
  filePath : String
  relativePath : String
  functions : List FunctionState
deriving DecidableEq, Repr

/-- A stored line note (`AuditNote` with kind `line`; codebase notes are a
pointer to an external markdown document and are not stored entities). -/
structure LineNote where
  id : String
  filePath : String
  line : Nat
  content : String
  createdAt : Nat
  updatedAt : Nat
deriving DecidableEq, Repr

/-- The root state: scope paths, excluded paths, tracked files, notes. -/
structure RootState where
  scopePaths : List String
  excludedPaths : List String
  files : List ScopedFile
  notes : List LineNote
deriving DecidableEq, Repr

/-- The empty initial root state. -/
def emptyRootState : RootState :=
  { scopePaths := [], excludedPaths := [], files := [], notes := [] }

/-! ## StateManager operations, modelled from the spec (§4.1) -/

/-- Modelled from the spec: `addScopePath(path)` is an idempotent
set-insert into the scope-path list (`StateManager` source not in tree). -/
def addScopePath (s : RootState) (p : String) : RootState :=
  if p ∈ s.scopePaths then s else { s with scopePaths := s.scopePaths ++ [p] }

/-- Modelled from the spec: removes a path from the exclusion list; used by
`ScopeManager.addToScope`, which removes only the explicitly re-added path
itself (`StateManager` source not in tree). -/
def removeExcludedPath (s : RootState) (p : String) : RootState :=
  { s with excludedPaths := s.excludedPaths.filter (fun q => q != p) }

/-- Modelled from the spec: exclusion-list membership test, consumed by
`ScopeManager.addToScope` and `getInScopeFiles` as `isPathExcluded`
(`StateManager` source not in tree). -/
def isPathExcluded (s : RootState) (p : String) : Bool :=
  s.excludedPaths.contains p

/-- Modelled from the spec: `removeScopePath(path)` removes the path from
the scope-path list, cascades removal of every `ScopedFile` whose path
falls under it by prefix match, and records the removed path and the
prefix-matched descendants as excluded so a re-add of a surviving ancestor
scope does not resurrect them (`StateManager` source not in tree). -/
def removeScopePath (s : RootState) (p : String) : RootState :=
  { s with
    scopePaths := s.scopePaths.filter (fun sp => sp != p),
    files := s.files.filter (fun f => !strStartsWith f.filePath p),
    excludedPaths := s.excludedPaths ++
      p :: (s.files.filter (fun f => strStartsWith f.filePath p)).map
        (fun f => f.filePath) }

/-- Modelled from the spec: `isPathInScope(path)` holds iff the path is
covered (prefix containment) by some non-excluded scope path and is not
itself excluded (`StateManager` source not in tree). -/
def isPathInScope (s : RootState) (p : String) : Bool :=
  !isPathExcluded s p &&
    s.scopePaths.any (fun sp => !isPathExcluded s sp && strStartsWith p sp)

/-- Modelled from the spec: the stable function identifier is derived from
file path, name and position (`StateManager` source not in tree). -/
def mkFunctionId (filePath name : String) (startLine : Nat) : String :=
  filePath ++ ":" ++ name ++ ":" ++ toString startLine

/-- Modelled from the spec: a freshly created `FunctionState` carries the
derived id and default flags `read = reviewed = entrypoint = false`
(`StateManager` source not in tree). -/
def mkFunctionState (filePath : String) (sym : FunctionSymbol) : FunctionState :=
  { id := mkFunctionId filePath sym.name sym.startLine,
    name := sym.name,
    filePath := filePath,
    startLine := sym.startLine,
    endLine := sym.endLine,
    read := false,
    reviewed := false,
    entrypoint := false }

/-- Modelled from the spec: merge of one extracted symbol against the
existing function list of its file, keyed by name within the file — a
match retains the existing entry's flags and id (the line range is
refreshed from the new symbol), a miss creates a default-flagged entry
(`StateManager` source not in tree). -/
def mergeSymbol (filePath : String) (existing : List FunctionState)
    (sym : FunctionSymbol) : FunctionState :=
  match existing.find? (fun fs => fs.name == sym.name) with
  | some old => { old with startLine := sym.startLine, endLine := sym.endLine }
  | none => mkFunctionState filePath sym

/-- Modelled from the spec: the merged function list produced by
`setFileFunctions` — one entry per new symbol, existing entries with no
matching new symbol are dropped (`StateManager` source not in tree). -/
def mergeFunctions (filePath : String) (existing : List FunctionState)
    (newSymbols : List FunctionSymbol) : List FunctionState :=
  newSymbols.map (mergeSymbol filePath existing)

/-- Modelled from the spec: per-entry update applied by `setFileFunctions`
to the tracked-file list (`StateManager` source not in tree). -/
def updateEntry (filePath relativePath : String)
    (newSymbols : List FunctionSymbol) (f : ScopedFile) : ScopedFile :=
  if f.filePath == filePath then
    { f with relativePath := relativePath,
             functions := mergeFunctions filePath f.functions newSymbols }
  else f

/-- Modelled from the spec: `setFileFunctions(path, relativePath,
newSymbols)` merges the new symbols into the file's existing entry, or
creates the entry when the file is not yet tracked (`StateManager` source
not in tree). -/
def setFileFunctions (s : RootState) (filePath relativePath : String)
    (newSymbols : List FunctionSymbol) : RootState :=
  if s.files.any (fun f => f.filePath == filePath) then
    { s with files := s.files.map (updateEntry filePath relativePath newSymbols) }
  else
    { s with files := s.files ++
        [{ filePath := filePath, relativePath := relativePath,
           functions := mergeFunctions filePath [] newSymbols }] }

/-- The function list currently stored for a file (empty when the file is
not tracked). -/
def functionsFor (s : RootState) (filePath : String) : List FunctionState :=
  match s.files.find? (fun f => f.filePath == filePath) with
  | some f => f.functions
  | none => []

/-- Modelled from the spec: flag mutators look a `FunctionState` up by id
across all files and are a silent no-op when the id is absent
(`StateManager` source not in tree). -/
def updateFunctionById (s : RootState) (fid : String)
    (upd : FunctionState → FunctionState) : RootState :=
  { s with files := s.files.map (fun f =>
      { f with functions := f.functions.map (fun fn =>
          if fn.id == fid then upd fn else fn) }) }

/-- Modelled from the spec: `setRead(id, bool)` (`StateManager` source not
in tree). -/
def setRead (s : RootState) (fid : String) (b : Bool) : RootState :=
  updateFunctionById s fid (fun fn => { fn with read := b })

/-- Modelled from the spec: `setReviewed(id, bool)` (`StateManager` source
not in tree). -/
def setReviewed (s : RootState) (fid : String) (b : Bool) : RootState :=
  updateFunctionById s fid (fun fn => { fn with reviewed := b })

/-- Modelled from the spec: `setEntrypoint(id, bool)` (`StateManager`
source not in tree). -/
def setEntrypoint (s : RootState) (fid : String) (b : Bool) : RootState :=
  updateFunctionById s fid (fun fn => { fn with entrypoint := b })

/-- Modelled from the spec: `addNote(n)` appends to the note list
(`StateManager` source not in tree). -/
def addNote (s : RootState) (n : LineNote) : RootState :=
  { s with notes := s.notes ++ [n] }

/-- Modelled from the spec: `updateNote(id, content)` replaces the content
and bumps `updatedAt` of the note with the given id, preserving its id and
`createdAt`; silent no-op when the id is absent (`StateManager` source not
in tree). -/
def updateNote (s : RootState) (nid content : String) (now : Nat) : RootState :=
  { s with notes := s.notes.map (fun n =>
      if n.id == nid then { n with content := content, updatedAt := now } else n) }

/-- Modelled from the spec: `deleteNote(id)` removes the note with the
given id (`StateManager` source not in tree). -/
def deleteNote (s : RootState) (nid : String) : RootState :=
  { s with notes := s.notes.filter (fun n => n.id != nid) }

/-- Modelled from the spec: `getNotesForLine(path, line)` is a pure query
returning the notes anchored at exactly that file and line
(`StateManager` source not in tree). -/
def getNotesForLine (s : RootState) (q : String) (line : Nat) : List LineNote :=
  s.notes.filter (fun n => n.filePath == q && n.line == line)

/-- Modelled from the spec: `getLineNotesForFile(path)` is a pure query
returning the notes anchored in the given file (`StateManager` source not
in tree). -/
def getLineNotesForFile (s : RootState) (q : String) : List LineNote :=
  s.notes.filter (fun n => n.filePath == q)

/-- The persisted per-workspace state document as `load()` finds it:
missing, present but unparseable, or a valid serialisation of a root
state. -/
inductive StoredDoc where
  | missing : StoredDoc
  | corrupt : StoredDoc
  | valid : RootState → StoredDoc

/-- Modelled from the spec: `load()` deserialises the full root state from
the per-workspace document and yields the empty initial state — rather
than failing — when the document is missing or contains corrupt JSON
(`StateManager` source not in tree). -/
def load : StoredDoc → RootState
  | .missing => emptyRootState
  | .corrupt => emptyRootState
  | .valid s => s

/-! ## File-system model and ScopeManager (embedded from
`ScopeManager.ts`, the unnamed source part) -/

mutual

/-- A node of the workspace file system as seen through
`vscode.workspace.fs`: a regular file, an entry of another type (symlink
or unknown), or a directory with named entries. -/
inductive FSNode where
  | file : FSNode
  | other : FSNode
  | dir : FSEntries → FSNode

/-- A directory listing: ordered named entries, as returned by
`vscode.workspace.fs.readDirectory`. -/
inductive FSEntries where
  | nil : FSEntries
  | cons : String → FSNode → FSEntries → FSEntries

end

/-- The host file system, abstracted as the `stat` capability: `none` when
the path does not exist (the code's thrown error), otherwise the node
found at the path, a directory node carrying its recursive listing. -/
def FileSystem : Type := String → Option FSNode

/-- The external symbol-resolution capability: the (already deduplicated)
symbol list reported for a file path. -/
def Extractor : Type := String → List FunctionSymbol

/-- Embedding of `ScopeManager.getFilesInDirectory`: walk the directory
entries in order, skipping entries whose name starts with `.` and entries
named `node_modules`, collecting regular files and recursing into
subdirectories. -/
def getFilesInDirectory (dirPath : String) : FSEntries → List String
  | .nil => []
  | .cons name node rest =>
      if strStartsWith name "." || name == "node_modules" then
        getFilesInDirectory dirPath rest
      else
        match node with
        | .file => (dirPath ++ "/" ++ name) :: getFilesInDirectory dirPath rest
        | .other => getFilesInDirectory dirPath rest
        | .dir es =>
            getFilesInDirectory (dirPath ++ "/" ++ name) es ++
              getFilesInDirectory dirPath rest
termination_by structural es => es

/-- Embedding of `ScopeManager.expandToFiles`: a file expands to itself, a
directory to its recursive listing, any other node type to nothing, and a
failing `stat` (nonexistent path) is swallowed, yielding nothing. -/
def expandToFiles (fsys : FileSystem) (filePath : String) : List String :=
  match fsys filePath with
  | some .file => [filePath]
  | some (.dir es) => getFilesInDirectory filePath es
  | some .other => []
  | none => []

/-- Embedding of `ScopeManager.getRelativePath`: the path relative to the
workspace root when the file lies under it, the basename otherwise
(display only; `path.relative` and `path.basename` are rendered on the
character list). -/
def getRelativePath (root : Option String) (fp : String) : String :=
  match root with
  | some r =>
      if strStartsWith fp r then
        ⟨(fp.data.drop r.data.length).dropWhile (fun c => c == '/')⟩
      else ⟨(fp.data.reverse.takeWhile (fun c => c != '/')).reverse⟩
  | none => ⟨(fp.data.reverse.takeWhile (fun c => c != '/')).reverse⟩

/-- Embedding of `ScopeManager.extractSymbolsForFiles`: extract symbols
for each file in order and store them through `setFileFunctions`. -/
def extractSymbolsForFiles (ext : Extractor) (root : Option String) :
    RootState → List String → RootState
  | s, [] => s
  | s, fp :: rest =>
      extractSymbolsForFiles ext root
        (setFileFunctions s fp (getRelativePath root fp) (ext fp)) rest

/-- Embedding of `ScopeManager.addToScope`: record the scope path, drop it
from the exclusion list, expand it to files, filter the expansion against
the exclusion list, extract symbols for the surviving files, and return
the new state together with the list of files added. -/
def addToScope (fsys : FileSystem) (ext : Extractor) (root : Option String)
    (s : RootState) (p : String) : RootState × List String :=
  let s1 := removeExcludedPath (addScopePath s p) p
  let filtered := (expandToFiles fsys p).filter (fun f => !isPathExcluded s1 f)
  (extractSymbolsForFiles ext root s1 filtered, filtered)

/-- Embedding of `ScopeManager.removeFromScope`: delegates to the state
store's `removeScopePath`. -/
def removeFromScope (s : RootState) (p : String) : RootState :=
  removeScopePath s p

/-- Embedding of `ScopeManager.isInScope`: delegates to the state store's
`isPathInScope`. -/
def isInScope (s : RootState) (p : String) : Bool :=
  isPathInScope s p

/-! ## Scope declaration document and commands (embedded from
`extension.ts`) -/

/-- Embedding of one iteration of the line loop in `loadScopeFile`
(`extension.ts`): trim the line; skip it when it is blank or starts with
`#` or `//`; otherwise resolve it (absolute paths as-is, relative paths
against the workspace root), add it to scope and count the files added. -/
def scopeLineStep (fsys : FileSystem) (ext : Extractor) (root : String)
    (acc : RootState × Nat) (line : String) : RootState × Nat :=
  let trimmed := strTrim line
  if strIsEmpty trimmed || strStartsWith trimmed "#" || strStartsWith trimmed "//" then
    acc
  else
    let filePath := if strStartsWith trimmed "/" then trimmed else root ++ "/" ++ trimmed
    let r := addToScope fsys ext (some root) acc.1 filePath
    (r.1, acc.2 + r.2.length)

/-- Embedding of `loadScopeFile` (`extension.ts`): with no scope document
present nothing happens; otherwise the document is split into lines and
each line is processed by `scopeLineStep`, returning the final state and
the number of files added. -/
def loadScopeFile (fsys : FileSystem) (ext : Extractor) (root : String)
    (doc : Option String) (s : RootState) : RootState × Nat :=
  match doc with
  | none => (s, 0)
  | some content => (splitLines content).foldl (scopeLineStep fsys ext root) (s, 0)

/-- Embedding of the startup gate in `activate` (`extension.ts`): the
scope document is read automatically only when the loaded state has no
scope paths. -/
def activateScopeLoad (fsys : FileSystem) (ext : Extractor) (root : String)
    (doc : Option String) (s : RootState) : RootState :=
  if s.scopePaths.isEmpty then (loadScopeFile fsys ext root doc s).1 else s

/-- Embedding of the note construction in the `auditTracker.addLineNote`
command (`extension.ts`): id `line-` followed by the millisecond clock
value, and `createdAt`/`updatedAt` both set from the same ambient clock
state `now` (the handler is synchronous, so its three clock reads observe
one clock state). -/
def makeLineNote (now : Nat) (filePath : String) (line : Nat)
    (content : String) : LineNote :=
  { id := "line-" ++ toString now,
    filePath := filePath,
    line := line,
    content := content,
    createdAt := now,
    updatedAt := now }

/-- Embedding of the `auditTracker.addLineNote` command (`extension.ts`):
a note is stored only when the input box returned nonempty content. -/
def addLineNoteCommand (now : Nat) (filePath : String) (line : Nat)
    (content : String) (s : RootState) : RootState :=
  if strIsEmpty content then s else addNote s (makeLineNote now filePath line content)

/-! ## Spec-side rendering of the expansion contract (§4.2), for the
refinement statement of the `expand` claim -/

/-- An entry is visible to expansion unless its name starts with the
hidden-file marker `.` or it is the dependency cache `node_modules`. -/
def visibleEntry (name : String) : Bool :=
  !(strStartsWith name "." || name == "node_modules")

mutual

/-- Spec-side: the regular files a single visible node contributes — a
file contributes itself, a directory its recursive contents, anything
else nothing. -/
def specNodeFiles (entryPath : String) : FSNode → List String
  | .file => [entryPath]
  | .other => []
  | .dir es => filesUnder entryPath es
termination_by structural n => n

/-- Spec-side (§4.2): the regular files recursively beneath a directory,
where every entry failing `visibleEntry` is skipped at every level. -/
def filesUnder (dirPath : String) : FSEntries → List String
  | .nil => []
  | .cons name node rest =>
      (if visibleEntry name then specNodeFiles (dirPath ++ "/" ++ name) node else []) ++
        filesUnder dirPath rest
termination_by structural es => es

end

/-- Spec-side (§4.2): `expand(path)` — singleton for a file, recursive
visible listing for a directory, empty (error swallowed) otherwise. -/
def expandSpec (fsys : FileSystem) (p : String) : List String :=
  match fsys p with
  | some .file => [p]
  | some (.dir es) => filesUnder p es
  | some .other => []
  | none => []

example : expandToFiles
    (fun p => if p == "/r" then
        some (.dir (.cons "a.txt" .file (.cons ".git" (.dir (.cons "x" .file .nil))
          (.cons "sub" (.dir (.cons "b.txt" .file .nil)) .nil))))
      else none) "/r" = ["/r/a.txt", "/r/sub/b.txt"] := by
  decide

/-! ## Helper lemmas -/

theorem strStartsWith_refl (p : String) : strStartsWith p p = true :=
  List.isPrefixOf_iff_prefix.mpr (List.prefix_refl _)

theorem contains_eq_true_iff {l : List String} {a : String} :
    l.contains a = true ↔ a ∈ l := List.elem_iff

theorem setFileFunctions_scopePaths (s : RootState) (p r : String)
    (syms : List FunctionSymbol) :
    (setFileFunctions s p r syms).scopePaths = s.scopePaths := by
  unfold setFileFunctions; split <;> rfl

theorem setFileFunctions_excludedPaths (s : RootState) (p r : String)
    (syms : List FunctionSymbol) :
    (setFileFunctions s p r syms).excludedPaths = s.excludedPaths := by
  unfold setFileFunctions; split <;> rfl

theorem extractSymbolsForFiles_scopePaths (ext : Extractor) (root : Option String) :
    ∀ (l : List String) (s : RootState),
      (extractSymbolsForFiles ext root s l).scopePaths = s.scopePaths
  | [], _ => rfl
  | fp :: tl, s => by
      rw [extractSymbolsForFiles,
        extractSymbolsForFiles_scopePaths ext root tl, setFileFunctions_scopePaths]

theorem extractSymbolsForFiles_excludedPaths (ext : Extractor) (root : Option String) :
    ∀ (l : List String) (s : RootState),
      (extractSymbolsForFiles ext root s l).excludedPaths = s.excludedPaths
  | [], _ => rfl
  | fp :: tl, s => by
      rw [extractSymbolsForFiles,
        extractSymbolsForFiles_excludedPaths ext root tl, setFileFunctions_excludedPaths]

theorem isPathInScope_eq_of {a b : RootState} (p : String)
    (h1 : a.scopePaths = b.scopePaths) (h2 : a.excludedPaths = b.excludedPaths) :
    isPathInScope a p = isPathInScope b p := by
  unfold isPathInScope isPathExcluded; rw [h1, h2]

theorem isPathInScope_of (s : RootState) (p : String)
    (h1 : p ∈ s.scopePaths) (h2 : p ∉ s.excludedPaths) : isPathInScope s p = true := by
  have hc : s.excludedPaths.contains p = false := by
    cases hc : s.excludedPaths.contains p with
    | false => rfl
    | true => exact absurd (contains_eq_true_iff.mp hc) h2
  unfold isPathInScope isPathExcluded
  rw [hc]
  simp only [Bool.not_false, Bool.true_and]
  rw [List.any_eq_true]
  exact ⟨p, h1, by rw [hc, strStartsWith_refl]; rfl⟩

theorem isPathInScope_false_of_excluded (s : RootState) (p : String)
    (h : p ∈ s.excludedPaths) : isPathInScope s p = false := by
  unfold isPathInScope isPathExcluded
  rw [contains_eq_true_iff.mpr h]
  rfl

/-! ## Claim theorems -/

/-- C3: for every path P, immediately after adding P to scope the query
`isInScope(P)` returns true, and immediately after removing P from scope it
returns false.  (The add operation is `ScopeManager.addToScope`, which
records the scope path and clears P from the exclusion list; removal is
`removeScopePath`.) -/
theorem isInScope_after_add_remove (fsys : FileSystem) (ext : Extractor)
    (root : Option String) (s : RootState) (p : String) :
    isInScope (addToScope fsys ext root s p).1 p = true ∧
    isInScope (removeScopePath s p) p = false := by
  constructor
  · show isPathInScope
      (extractSymbolsForFiles ext root (removeExcludedPath (addScopePath s p) p)
        ((expandToFiles fsys p).filter
          (fun f => !isPathExcluded (removeExcludedPath (addScopePath s p) p) f))) p = true
    rw [isPathInScope_eq_of p
      (extractSymbolsForFiles_scopePaths ext root _ _)
      (extractSymbolsForFiles_excludedPaths ext root _ _)]
    apply isPathInScope_of
    · show p ∈ (addScopePath s p).scopePaths
      unfold addScopePath; split
      · assumption
      · exact List.mem_append_right _ (List.mem_cons_self _ _)
    · intro hmem
      have h2 := (List.mem_filter.mp hmem).2
      simp at h2
  · exact isPathInScope_false_of_excluded _ _
      (List.mem_append_right _ (List.mem_cons_self _ _))

/-- C6: `load()` never fails: a missing persisted document and a corrupt
(unparseable) one both yield the empty initial root state — no scope
paths, no excluded paths, no tracked files, no notes. -/
theorem load_tolerates_missing_and_corrupt :
    load .missing = emptyRootState ∧ load .corrupt = emptyRootState ∧
    (load .missing).scopePaths = [] ∧ (load .missing).excludedPaths = [] ∧
    (load .missing).files = [] ∧ (load .missing).notes = [] ∧
    (load .corrupt).scopePaths = [] ∧ (load .corrupt).excludedPaths = [] ∧
    (load .corrupt).files = [] ∧ (load .corrupt).notes = [] :=
  ⟨rfl, rfl, rfl, rfl, rfl, rfl, rfl, rfl, rfl, rfl⟩

/-- C10: a line note created by the add-line-note command has id
`line-` followed by the creation-time clock value, `createdAt` equal to
`updatedAt`, and an id depending only on the clock value — two notes
created at the same clock value receive equal ids. -/
theorem line_note_id_from_clock (now : Nat) (fp : String) (line : Nat)
    (c : String) (fp2 : String) (line2 : Nat) (c2 : String) :
    (makeLineNote now fp line c).id = "line-" ++ toString now ∧
    (makeLineNote now fp line c).createdAt = (makeLineNote now fp line c).updatedAt ∧
    (makeLineNote now fp line c).id = (makeLineNote now fp2 line2 c2).id :=
  ⟨rfl, rfl, rfl⟩

theorem specNodeFiles_dir (p : String) (es : FSEntries) :
    specNodeFiles p (.dir es) = filesUnder p es := by
  rw [specNodeFiles.eq_def]

theorem getFilesInDirectory_eq_filesUnder :
    ∀ (d : String) (es : FSEntries), getFilesInDirectory d es = filesUnder d es
  | d, .nil => by rw [getFilesInDirectory.eq_def, filesUnder.eq_def]
  | d, .cons name node rest => by
      have hcode : getFilesInDirectory d (.cons name node rest) =
          if strStartsWith name "." || name == "node_modules" then
            getFilesInDirectory d rest
          else
            match node with
            | .file => (d ++ "/" ++ name) :: getFilesInDirectory d rest
            | .other => getFilesInDirectory d rest
            | .dir es =>
                getFilesInDirectory (d ++ "/" ++ name) es ++
                  getFilesInDirectory d rest := by
        rw [getFilesInDirectory.eq_def]
      have hspec : filesUnder d (.cons name node rest) =
          (if visibleEntry name then specNodeFiles (d ++ "/" ++ name) node else []) ++
            filesUnder d rest := by
        rw [filesUnder.eq_def]
      rw [hcode, hspec]
      cases hv : strStartsWith name "." || name == "node_modules" with
      | true =>
          rw [if_pos rfl]
          have hvis : visibleEntry name = false := by unfold visibleEntry; rw [hv]; rfl
          rw [hvis, if_neg (by simp), getFilesInDirectory_eq_filesUnder d rest]
          rfl
      | false =>
          rw [if_neg (by simp)]
          have hvis : visibleEntry name = true := by unfold visibleEntry; rw [hv]; rfl
          rw [hvis, if_pos rfl]
          cases node with
          | file =>
              show (d ++ "/" ++ name) :: getFilesInDirectory d rest =
                specNodeFiles (d ++ "/" ++ name) FSNode.file ++ filesUnder d rest
              rw [getFilesInDirectory_eq_filesUnder d rest]
              rfl
          | other =>
              show getFilesInDirectory d rest =
                specNodeFiles (d ++ "/" ++ name) FSNode.other ++ filesUnder d rest
              rw [getFilesInDirectory_eq_filesUnder d rest]
              rfl
          | dir es2 =>
              show getFilesInDirectory (d ++ "/" ++ name) es2 ++ getFilesInDirectory d rest =
                specNodeFiles (d ++ "/" ++ name) (FSNode.dir es2) ++ filesUnder d rest
              rw [specNodeFiles_dir, getFilesInDirectory_eq_filesUnder (d ++ "/" ++ name) es2,
                getFilesInDirectory_eq_filesUnder d rest]
termination_by structural _ es => es

/-- C5: `expand(path)` returns the singleton `[path]` when the path names
a regular file; the recursive list of regular files beneath it — skipping
entries whose name starts with `.` and entries named `node_modules` at
every level — when it names a directory; and the empty list, the
underlying file-system error swallowed, when the path does not exist (and
also for nodes of any other type). -/
theorem expandToFiles_spec (fsys : FileSystem) (p : String) :
    expandToFiles fsys p = expandSpec fsys p := by
  unfold expandToFiles expandSpec
  cases fsys p with
  | none => rfl
  | some n =>
      cases n with
      | file => rfl
      | other => rfl
      | dir es => exact getFilesInDirectory_eq_filesUnder p es

theorem updateFunctionById_noop (s : RootState) (fid : String)
    (upd : FunctionState → FunctionState)
    (h : ∀ f ∈ s.files, ∀ fn ∈ f.functions, fn.id ≠ fid) :
    updateFunctionById s fid upd = s := by
  unfold updateFunctionById
  have hmap : s.files.map (fun f =>
      { f with functions := f.functions.map (fun fn =>
          if fn.id == fid then upd fn else fn) }) = s.files := by
    have hpt : s.files.map (fun f =>
        { f with functions := f.functions.map (fun fn =>
            if fn.id == fid then upd fn else fn) }) = s.files.map id := by
      apply List.map_congr_left
      intro f hf
      have hfun : f.functions.map (fun fn => if fn.id == fid then upd fn else fn) =
          f.functions := by
        have hpt2 : f.functions.map (fun fn => if fn.id == fid then upd fn else fn) =
            f.functions.map id := by
          apply List.map_congr_left
          intro fn hfn
          have hne : ¬((fn.id == fid) = true) := by
            simp only [beq_iff_eq]
            exact h f hf fn hfn
          rw [if_neg hne]
          rfl
        rw [hpt2, List.map_id]
      rw [hfun]
      rfl
    rw [hpt, List.map_id]
  rw [hmap]

theorem updateNote_noop (s : RootState) (nid c : String) (now : Nat)
    (h : ∀ n ∈ s.notes, n.id ≠ nid) : updateNote s nid c now = s := by
  unfold updateNote
  have hmap : s.notes.map (fun n =>
      if n.id == nid then { n with content := c, updatedAt := now } else n) =
      s.notes := by
    have hpt : s.notes.map (fun n =>
        if n.id == nid then { n with content := c, updatedAt := now } else n) =
        s.notes.map id := by
      apply List.map_congr_left
      intro n hn
      have hne : ¬((n.id == nid) = true) := by
        simp only [beq_iff_eq]
        exact h n hn
      rw [if_neg hne]
      rfl
    rw [hpt, List.map_id]
  rw [hmap]

/-- C7: for an id not present anywhere in the state, each of `setRead`,
`setReviewed`, `setEntrypoint` and `updateNote` is a silent no-op: no
error is raised (the operations are total) and the state is returned
unchanged. -/
theorem mutators_noop_on_missing_id (s : RootState) (fid : String) (b : Bool)
    (c : String) (now : Nat)
    (hfun : ∀ f ∈ s.files, ∀ fn ∈ f.functions, fn.id ≠ fid)
    (hnote : ∀ n ∈ s.notes, n.id ≠ fid) :
    setRead s fid b = s ∧ setReviewed s fid b = s ∧ setEntrypoint s fid b = s ∧
      updateNote s fid c now = s :=
  ⟨updateFunctionById_noop s fid _ hfun, updateFunctionById_noop s fid _ hfun,
   updateFunctionById_noop s fid _ hfun, updateNote_noop s fid c now hnote⟩

/-- Witness for C7: on a concrete state holding one function and one note,
the mutators called with an absent id leave the state unchanged. -/
theorem mutators_noop_on_missing_id_witness :
    setRead ⟨[], [], [⟨"b", "b", [mkFunctionState "b" ⟨"f", 1, 3⟩]⟩],
        [⟨"line-7", "a", 2, "c", 7, 7⟩]⟩ "ghost" true =
      ⟨[], [], [⟨"b", "b", [mkFunctionState "b" ⟨"f", 1, 3⟩]⟩],
        [⟨"line-7", "a", 2, "c", 7, 7⟩]⟩ ∧
    setReviewed ⟨[], [], [⟨"b", "b", [mkFunctionState "b" ⟨"f", 1, 3⟩]⟩],
        [⟨"line-7", "a", 2, "c", 7, 7⟩]⟩ "ghost" true =
      ⟨[], [], [⟨"b", "b", [mkFunctionState "b" ⟨"f", 1, 3⟩]⟩],
        [⟨"line-7", "a", 2, "c", 7, 7⟩]⟩ ∧
    setEntrypoint ⟨[], [], [⟨"b", "b", [mkFunctionState "b" ⟨"f", 1, 3⟩]⟩],
        [⟨"line-7", "a", 2, "c", 7, 7⟩]⟩ "ghost" true =
      ⟨[], [], [⟨"b", "b", [mkFunctionState "b" ⟨"f", 1, 3⟩]⟩],
        [⟨"line-7", "a", 2, "c", 7, 7⟩]⟩ ∧
    updateNote ⟨[], [], [⟨"b", "b", [mkFunctionState "b" ⟨"f", 1, 3⟩]⟩],
        [⟨"line-7", "a", 2, "c", 7, 7⟩]⟩ "ghost" "c2" 9 =
      ⟨[], [], [⟨"b", "b", [mkFunctionState "b" ⟨"f", 1, 3⟩]⟩],
        [⟨"line-7", "a", 2, "c", 7, 7⟩]⟩ :=
  mutators_noop_on_missing_id _ "ghost" true "c2" 9 (by decide) (by decide)

theorem updateEntry_filePath (p r : String) (syms : List FunctionSymbol)
    (f : ScopedFile) : (updateEntry p r syms f).filePath = f.filePath := by
  unfold updateEntry; split <;> rfl

theorem functionsFor_setFileFunctions (s : RootState) (p r : String)
    (syms : List FunctionSymbol) :
    functionsFor (setFileFunctions s p r syms) p =
      mergeFunctions p (functionsFor s p) syms := by
  unfold setFileFunctions functionsFor
  cases hany : s.files.any (fun f => f.filePath == p) with
  | false =>
      rw [if_neg (by simp)]
      have hnone : s.files.find? (fun f => f.filePath == p) = none := by
        rw [List.find?_eq_none]
        exact List.any_eq_false.mp hany
      have hsing : List.find? (fun f : ScopedFile => f.filePath == p)
          ([⟨p, r, mergeFunctions p [] syms⟩] : List ScopedFile) =
          some ⟨p, r, mergeFunctions p [] syms⟩ := by
        apply List.find?_cons_of_pos
        exact beq_self_eq_true p
      rw [List.find?_append, hnone, hsing]
      rfl
  | true =>
      rw [if_pos rfl, List.find?_map]
      have hpred : ((fun f => f.filePath == p) ∘ updateEntry p r syms) =
          (fun f => f.filePath == p) := by
        funext f
        show ((updateEntry p r syms f).filePath == p) = (f.filePath == p)
        rw [updateEntry_filePath]
      rw [hpred]
      cases hfind : s.files.find? (fun f => f.filePath == p) with
      | none =>
          exfalso
          obtain ⟨x, hx, hpx⟩ := List.any_eq_true.mp hany
          exact (List.find?_eq_none.mp hfind x hx) hpx
      | some f0 =>
          have hf0x := List.find?_some hfind
          have hf0 : (f0.filePath == p) = true := hf0x
          show (updateEntry p r syms f0).functions = mergeFunctions p f0.functions syms
          unfold updateEntry
          rw [if_pos hf0]

theorem mergeSymbol_name (p : String) (old : List FunctionState)
    (sym : FunctionSymbol) : (mergeSymbol p old sym).name = sym.name := by
  unfold mergeSymbol
  cases hfind : old.find? (fun fs => fs.name == sym.name) with
  | none => rfl
  | some o =>
      show o.name = sym.name
      have hx := List.find?_some hfind
      have hx2 : (o.name == sym.name) = true := hx
      exact beq_iff_eq.mp hx2

theorem mergeSymbol_startLine (p : String) (old : List FunctionState)
    (sym : FunctionSymbol) : (mergeSymbol p old sym).startLine = sym.startLine := by
  unfold mergeSymbol; split <;> rfl

theorem mergeSymbol_endLine (p : String) (old : List FunctionState)
    (sym : FunctionSymbol) : (mergeSymbol p old sym).endLine = sym.endLine := by
  unfold mergeSymbol; split <;> rfl

def scenarioBefore : RootState :=
  setReviewed (setFileFunctions emptyRootState "b.txt" "b.txt"
    [⟨"f", 1, 3⟩, ⟨"g", 4, 6⟩]) (mkFunctionId "b.txt" "f" 1) true

/-- C1: `setFileFunctions` merges the new symbol list into the existing
function list of the file, keyed by name within the file: the result has
one entry per new symbol; every surviving entry's name comes from a new
symbol (existing entries with no matching new symbol are dropped); a new
symbol whose name matches an existing entry keeps that entry's id and
`read`/`reviewed`/`entrypoint` flags; a new symbol with no matching entry
gets default (all-false) flags.  In particular, after marking `f`
reviewed and re-extracting `b.txt` with symbols `f`, `g`, `h`: `f` stays
reviewed, `g` stays unread and `h` is created unread. -/
theorem setFileFunctions_merge_correct (s : RootState) (p r : String)
    (syms : List FunctionSymbol) :
    ((functionsFor (setFileFunctions s p r syms) p).length = syms.length ∧
     (∀ fs ∈ functionsFor (setFileFunctions s p r syms) p,
        ∃ sym ∈ syms, fs.name = sym.name) ∧
     (∀ sym ∈ syms, ∀ old,
        (functionsFor s p).find? (fun fs => fs.name == sym.name) = some old →
        ∃ fs ∈ functionsFor (setFileFunctions s p r syms) p,
          fs.id = old.id ∧ fs.read = old.read ∧ fs.reviewed = old.reviewed ∧
            fs.entrypoint = old.entrypoint ∧ fs.name = sym.name) ∧
     (∀ sym ∈ syms,
        (functionsFor s p).find? (fun fs => fs.name == sym.name) = none →
        ∃ fs ∈ functionsFor (setFileFunctions s p r syms) p,
          fs.name = sym.name ∧ fs.read = false ∧ fs.reviewed = false ∧
            fs.entrypoint = false)) ∧
    (functionsFor (setFileFunctions scenarioBefore "b.txt" "b.txt"
          [⟨"f", 1, 3⟩, ⟨"g", 4, 6⟩, ⟨"h", 7, 9⟩]) "b.txt").map
        (fun fs => (fs.name, fs.read, fs.reviewed, fs.entrypoint)) =
      [("f", false, true, false), ("g", false, false, false),
       ("h", false, false, false)] := by
  rw [functionsFor_setFileFunctions]
  refine ⟨⟨?_, ?_, ?_, ?_⟩, by decide⟩
  · exact List.length_map _ _
  · intro fs hfs
    obtain ⟨sym, hsym, heq⟩ := List.mem_map.mp hfs
    exact ⟨sym, hsym, by rw [← heq, mergeSymbol_name]⟩
  · intro sym hsym old hfind
    refine ⟨mergeSymbol p (functionsFor s p) sym,
      List.mem_map_of_mem _ hsym, ?_⟩
    unfold mergeSymbol
    rw [hfind]
    have hox := List.find?_some hfind
    have hox2 : (old.name == sym.name) = true := hox
    exact ⟨rfl, rfl, rfl, rfl, beq_iff_eq.mp hox2⟩
  · intro sym hsym hfind
    refine ⟨mergeSymbol p (functionsFor s p) sym,
      List.mem_map_of_mem _ hsym, ?_⟩
    unfold mergeSymbol
    rw [hfind]
    exact ⟨rfl, rfl, rfl, rfl⟩

/-- Witness for C1 on a concrete file: for the tracked file `w` holding
one function `m`, re-extracting with symbols `m` and `n` keeps `m`'s
entry (id and flags) and creates `n` with default flags. -/
theorem setFileFunctions_merge_correct_witness :
    (∃ fs ∈ functionsFor (setFileFunctions
        (setFileFunctions emptyRootState "w" "w" [⟨"m", 0, 2⟩])
        "w" "w" [⟨"m", 5, 7⟩, ⟨"n", 8, 9⟩]) "w",
      fs.id = (mkFunctionState "w" ⟨"m", 0, 2⟩).id ∧
      fs.read = (mkFunctionState "w" ⟨"m", 0, 2⟩).read ∧
      fs.reviewed = (mkFunctionState "w" ⟨"m", 0, 2⟩).reviewed ∧
      fs.entrypoint = (mkFunctionState "w" ⟨"m", 0, 2⟩).entrypoint ∧
      fs.name = (⟨"m", 5, 7⟩ : FunctionSymbol).name) ∧
    (∃ fs ∈ functionsFor (setFileFunctions
        (setFileFunctions emptyRootState "w" "w" [⟨"m", 0, 2⟩])
        "w" "w" [⟨"m", 5, 7⟩, ⟨"n", 8, 9⟩]) "w",
      fs.name = (⟨"n", 8, 9⟩ : FunctionSymbol).name ∧ fs.read = false ∧
        fs.reviewed = false ∧ fs.entrypoint = false) :=
  ⟨(setFileFunctions_merge_correct
      (setFileFunctions emptyRootState "w" "w" [⟨"m", 0, 2⟩]) "w" "w"
      [⟨"m", 5, 7⟩, ⟨"n", 8, 9⟩]).1.2.2.1 ⟨"m", 5, 7⟩ (by decide)
      (mkFunctionState "w" ⟨"m", 0, 2⟩) (by decide),
   (setFileFunctions_merge_correct
      (setFileFunctions emptyRootState "w" "w" [⟨"m", 0, 2⟩]) "w" "w"
      [⟨"m", 5, 7⟩, ⟨"n", 8, 9⟩]).1.2.2.2 ⟨"n", 8, 9⟩ (by decide) (by decide)⟩

theorem find?_symbolName_nodup :
    ∀ (syms : List FunctionSymbol) (sym : FunctionSymbol), sym ∈ syms →
      (syms.map (fun x => x.name)).Nodup →
      syms.find? (fun x => x.name == sym.name) = some sym := by
  intro syms
  induction syms with
  | nil => intro sym h; exact absurd h (List.not_mem_nil sym)
  | cons hd tl ih =>
      intro sym hmem hnodup
      rw [List.map_cons, List.nodup_cons] at hnodup
      rcases List.mem_cons.mp hmem with heq | htl
      · subst heq
        apply List.find?_cons_of_pos
        exact beq_self_eq_true sym.name
      · have hne : ¬((fun x : FunctionSymbol => x.name == sym.name) hd = true) := by
          show ¬((hd.name == sym.name) = true)
          rw [beq_iff_eq]
          intro he
          apply hnodup.1
          rw [he]
          exact List.mem_map_of_mem (fun x => x.name) htl
        exact (List.find?_cons_of_neg tl hne).trans (ih sym htl hnodup.2)

theorem find?_mergeFunctions (p : String) (old : List FunctionState)
    (syms : List FunctionSymbol) (sym : FunctionSymbol) (hmem : sym ∈ syms)
    (hnodup : (syms.map (fun x => x.name)).Nodup) :
    (mergeFunctions p old syms).find? (fun fs => fs.name == sym.name) =
      some (mergeSymbol p old sym) := by
  unfold mergeFunctions
  rw [List.find?_map]
  have hpred : ((fun fs : FunctionState => fs.name == sym.name) ∘ mergeSymbol p old) =
      (fun x : FunctionSymbol => x.name == sym.name) := by
    funext x
    show ((mergeSymbol p old x).name == sym.name) = (x.name == sym.name)
    rw [mergeSymbol_name]
  rw [hpred, find?_symbolName_nodup syms sym hmem hnodup]
  rfl

theorem mergeSymbol_mergeFunctions (p : String) (old : List FunctionState)
    (syms : List FunctionSymbol) (sym : FunctionSymbol) (hmem : sym ∈ syms)
    (hnodup : (syms.map (fun x => x.name)).Nodup) :
    mergeSymbol p (mergeFunctions p old syms) sym = mergeSymbol p old sym := by
  have hfind := find?_mergeFunctions p old syms sym hmem hnodup
  calc mergeSymbol p (mergeFunctions p old syms) sym
      = (match (mergeFunctions p old syms).find? (fun fs => fs.name == sym.name) with
         | some o => { o with startLine := sym.startLine, endLine := sym.endLine }
         | none => mkFunctionState p sym) := rfl
    _ = { mergeSymbol p old sym with
          startLine := sym.startLine, endLine := sym.endLine } := by rw [hfind]
    _ = mergeSymbol p old sym := by
        rw [← mergeSymbol_startLine p old sym, ← mergeSymbol_endLine p old sym]

theorem mergeFunctions_idem (p : String) (old : List FunctionState)
    (syms : List FunctionSymbol)
    (hnodup : (syms.map (fun x => x.name)).Nodup) :
    mergeFunctions p (mergeFunctions p old syms) syms = mergeFunctions p old syms :=
  List.map_congr_left
    (fun sym hmem => mergeSymbol_mergeFunctions p old syms sym hmem hnodup)

theorem updateEntry_idem (p r : String) (syms : List FunctionSymbol)
    (hnodup : (syms.map (fun x => x.name)).Nodup) (f : ScopedFile) :
    updateEntry p r syms (updateEntry p r syms f) = updateEntry p r syms f := by
  cases hfp : f.filePath == p with
  | false =>
      have h1 : updateEntry p r syms f = f := by
        unfold updateEntry
        rw [if_neg (by simp [hfp])]
      rw [h1, h1]
  | true =>
      have h1 : updateEntry p r syms f =
          { f with relativePath := r,
                   functions := mergeFunctions p f.functions syms } := by
        unfold updateEntry
        rw [if_pos hfp]
      rw [h1]
      unfold updateEntry
      rw [if_pos hfp]
      show ({ f with
                relativePath := r,
                functions := mergeFunctions p (mergeFunctions p f.functions syms)
                  syms } : ScopedFile) =
        { f with relativePath := r, functions := mergeFunctions p f.functions syms }
      rw [mergeFunctions_idem p f.functions syms hnodup]

/-- Counterexample to C2 as stated: with two extracted symbols sharing the
name `n` at different positions (which line-based deduplication admits),
the second identical `setFileFunctions` call re-keys the second entry to
the first entry's id, so the state after two calls differs from the state
after one. -/
theorem setFileFunctions_not_idempotent_on_duplicate_names :
    setFileFunctions (setFileFunctions emptyRootState "b.txt" "b.txt"
        [⟨"n", 1, 2⟩, ⟨"n", 5, 6⟩]) "b.txt" "b.txt" [⟨"n", 1, 2⟩, ⟨"n", 5, 6⟩] ≠
      setFileFunctions emptyRootState "b.txt" "b.txt" [⟨"n", 1, 2⟩, ⟨"n", 5, 6⟩] := by
  decide

/-- C2 (amended): calling `setFileFunctions` twice with the same
arguments yields the same state as calling it once — ids, flags and entry
count unchanged — provided the new symbols carry pairwise distinct names
(the name is the merge key, so duplicate names alias one entry). -/
theorem setFileFunctions_idempotent_of_distinct_names (s : RootState)
    (p r : String) (syms : List FunctionSymbol)
    (hnodup : (syms.map (fun x => x.name)).Nodup) :
    setFileFunctions (setFileFunctions s p r syms) p r syms =
      setFileFunctions s p r syms := by
  cases hany : s.files.any (fun f => f.filePath == p) with
  | true =>
      have hset : setFileFunctions s p r syms =
          { s with files := s.files.map (updateEntry p r syms) } := by
        unfold setFileFunctions
        rw [if_pos hany]
      rw [hset]
      have hcomp : ((fun f : ScopedFile => f.filePath == p) ∘ updateEntry p r syms) =
          (fun f : ScopedFile => f.filePath == p) := by
        funext f
        show ((updateEntry p r syms f).filePath == p) = (f.filePath == p)
        rw [updateEntry_filePath]
      have hany2 : (s.files.map (updateEntry p r syms)).any
          (fun f => f.filePath == p) = true := by
        rw [List.any_map, hcomp, hany]
      unfold setFileFunctions
      rw [if_pos hany2]
      show ({ s with
                files := (s.files.map (updateEntry p r syms)).map
                  (updateEntry p r syms) } : RootState) =
        { s with files := s.files.map (updateEntry p r syms) }
      rw [List.map_map]
      have hpt : s.files.map (updateEntry p r syms ∘ updateEntry p r syms) =
          s.files.map (updateEntry p r syms) :=
        List.map_congr_left (fun f _ => updateEntry_idem p r syms hnodup f)
      rw [hpt]
  | false =>
      have hset : setFileFunctions s p r syms =
          { s with files := s.files ++ [⟨p, r, mergeFunctions p [] syms⟩] } := by
        unfold setFileFunctions
        rw [if_neg (by simp [hany])]
      rw [hset]
      have hany2 : (s.files ++ [(⟨p, r, mergeFunctions p [] syms⟩ : ScopedFile)]).any
          (fun f => f.filePath == p) = true := by
        rw [List.any_append, hany]
        show (false || ((p == p) || false)) = true
        rw [beq_self_eq_true]
        rfl
      unfold setFileFunctions
      rw [if_pos hany2]
      show ({ s with
                files := (s.files ++
                  [(⟨p, r, mergeFunctions p [] syms⟩ : ScopedFile)]).map
                    (updateEntry p r syms) } : RootState) =
        { s with files := s.files ++ [⟨p, r, mergeFunctions p [] syms⟩] }
      rw [List.map_append]
      have h1 : s.files.map (updateEntry p r syms) = s.files := by
        have hpt : s.files.map (updateEntry p r syms) = s.files.map id :=
          List.map_congr_left (fun f hf => by
            unfold updateEntry
            rw [if_neg (List.any_eq_false.mp hany f hf)]
            rfl)
        rw [hpt, List.map_id]
      have h2 : [(⟨p, r, mergeFunctions p [] syms⟩ : ScopedFile)].map
          (updateEntry p r syms) = [⟨p, r, mergeFunctions p [] syms⟩] := by
        show [updateEntry p r syms ⟨p, r, mergeFunctions p [] syms⟩] =
          [(⟨p, r, mergeFunctions p [] syms⟩ : ScopedFile)]
        unfold updateEntry
        rw [if_pos (beq_self_eq_true p)]
        show [(⟨p, r, mergeFunctions p (mergeFunctions p [] syms) syms⟩ : ScopedFile)] =
          [⟨p, r, mergeFunctions p [] syms⟩]
        rw [mergeFunctions_idem p [] syms hnodup]
      rw [h1, h2]

/-- Witness for the amended C2: a concrete double call with two
distinctly named symbols equals the single call. -/
theorem setFileFunctions_idempotent_witness :
    setFileFunctions (setFileFunctions emptyRootState "b.txt" "b.txt"
        [⟨"f", 1, 3⟩, ⟨"g", 4, 6⟩]) "b.txt" "b.txt" [⟨"f", 1, 3⟩, ⟨"g", 4, 6⟩] =
      setFileFunctions emptyRootState "b.txt" "b.txt" [⟨"f", 1, 3⟩, ⟨"g", 4, 6⟩] :=
  setFileFunctions_idempotent_of_distinct_names emptyRootState "b.txt" "b.txt"
    [⟨"f", 1, 3⟩, ⟨"g", 4, 6⟩] (by decide)

theorem addScopePath_files (s : RootState) (p : String) :
    (addScopePath s p).files = s.files := by
  unfold addScopePath; split <;> rfl

theorem addScopePath_excludedPaths (s : RootState) (p : String) :
    (addScopePath s p).excludedPaths = s.excludedPaths := by
  unfold addScopePath; split <;> rfl

theorem setFileFunctions_filePath_prop (P : String → Prop) (s : RootState)
    (p r : String) (syms : List FunctionSymbol)
    (hs : ∀ f ∈ s.files, P f.filePath) (hp : P p) :
    ∀ f ∈ (setFileFunctions s p r syms).files, P f.filePath := by
  unfold setFileFunctions
  cases hany : s.files.any (fun f => f.filePath == p) with
  | true =>
      rw [if_pos rfl]
      intro f hf
      obtain ⟨f0, hf0, heq⟩ := List.mem_map.mp hf
      rw [← heq, updateEntry_filePath]
      exact hs f0 hf0
  | false =>
      rw [if_neg (by simp)]
      intro f hf
      rcases List.mem_append.mp hf with hl | hr
      · exact hs f hl
      · rcases List.mem_cons.mp hr with heq | habs
        · rw [heq]; exact hp
        · exact absurd habs (List.not_mem_nil f)

theorem extractSymbolsForFiles_filePath_prop (P : String → Prop) (ext : Extractor)
    (root : Option String) :
    ∀ (l : List String) (s : RootState), (∀ f ∈ s.files, P f.filePath) →
      (∀ q ∈ l, P q) → ∀ f ∈ (extractSymbolsForFiles ext root s l).files, P f.filePath
  | [], _, hs, _ => hs
  | fp :: tl, s, hs, hl => by
      rw [extractSymbolsForFiles]
      apply extractSymbolsForFiles_filePath_prop P ext root tl
      · exact setFileFunctions_filePath_prop P s fp (getRelativePath root fp)
          (ext fp) hs (hl fp (List.mem_cons_self fp tl))
      · intro q hq
        exact hl q (List.mem_cons.mpr (Or.inr hq))

/-- C4: removing a directory scope path D drops exactly the tracked files
whose path falls under D (prefix match) and records each dropped file's
path (and D itself) as excluded; afterwards, re-adding a scope path A that
is not the excluded path itself never recreates a tracked-file entry for
an excluded path, because `addToScope` filters the expansion against the
exclusion list and removes only A itself from that list. -/
theorem removeScope_cascade_and_no_resurrect :
    (∀ (s : RootState) (d : String),
      (∀ f : ScopedFile, f ∈ (removeScopePath s d).files ↔
        f ∈ s.files ∧ strStartsWith f.filePath d = false) ∧
      (∀ f ∈ s.files, strStartsWith f.filePath d = true →
        f.filePath ∈ (removeScopePath s d).excludedPaths)) ∧
    (∀ (fsys : FileSystem) (ext : Extractor) (root : Option String)
        (s : RootState) (a dpath : String),
      dpath ∈ s.excludedPaths → dpath ≠ a →
      (∀ f ∈ s.files, f.filePath ≠ dpath) →
      ∀ f ∈ (addToScope fsys ext root s a).1.files, f.filePath ≠ dpath) := by
  constructor
  · intro s d
    constructor
    · intro f
      show f ∈ s.files.filter (fun f => !strStartsWith f.filePath d) ↔ _
      rw [List.mem_filter]
      constructor
      · rintro ⟨hf, hb⟩
        exact ⟨hf, by simpa using hb⟩
      · rintro ⟨hf, hb⟩
        exact ⟨hf, by simp [hb]⟩
    · intro f hf hpre
      show f.filePath ∈ s.excludedPaths ++ d ::
        (s.files.filter (fun f => strStartsWith f.filePath d)).map
          (fun f => f.filePath)
      apply List.mem_append_right
      apply List.mem_cons.mpr
      right
      exact List.mem_map_of_mem _ (List.mem_filter.mpr ⟨hf, hpre⟩)
  · intro fsys ext root s a dpath hdx hda hfiles
    show ∀ f ∈ (extractSymbolsForFiles ext root
        (removeExcludedPath (addScopePath s a) a)
        ((expandToFiles fsys a).filter
          (fun q => !isPathExcluded (removeExcludedPath (addScopePath s a) a) q))).files,
      f.filePath ≠ dpath
    have hdx1 : dpath ∈ (removeExcludedPath (addScopePath s a) a).excludedPaths := by
      show dpath ∈ (addScopePath s a).excludedPaths.filter (fun q => q != a)
      rw [List.mem_filter, addScopePath_excludedPaths]
      exact ⟨hdx, by simpa [bne_iff_ne] using hda⟩
    apply extractSymbolsForFiles_filePath_prop (fun q => q ≠ dpath) ext root
    · intro f hf
      rw [show (removeExcludedPath (addScopePath s a) a).files = s.files from
        addScopePath_files s a ▸ rfl] at hf
      exact hfiles f hf
    · intro q hq heq
      have hqx := (List.mem_filter.mp hq).2
      rw [heq] at hqx
      have hc : isPathExcluded (removeExcludedPath (addScopePath s a) a) dpath = true :=
        contains_eq_true_iff.mpr hdx1
      rw [hc] at hqx
      exact absurd hqx (by decide)

/-- Witness for C4 on concrete states: removing the directory scope
`/lib` drops its file and records it as excluded, and re-adding the
parent `/r` while `/zzz` stays excluded does not create an entry whose
path is `/zzz`. -/
theorem removeScope_cascade_and_no_resurrect_witness :
    ((⟨"/lib/a.txt", "a.txt", []⟩ : ScopedFile) ∈
        (removeScopePath ⟨[], [], [⟨"/lib/a.txt", "a.txt", []⟩], []⟩ "/lib").files ↔
      (⟨"/lib/a.txt", "a.txt", []⟩ : ScopedFile) ∈
        ([⟨"/lib/a.txt", "a.txt", []⟩] : List ScopedFile) ∧
        strStartsWith "/lib/a.txt" "/lib" = false) ∧
    ("/lib/a.txt" : String) ∈
      (removeScopePath ⟨[], [], [⟨"/lib/a.txt", "a.txt", []⟩], []⟩ "/lib").excludedPaths ∧
    ((⟨"/r/x.txt", "x.txt", []⟩ : ScopedFile) ∈
        (addToScope
          (fun p => if p == "/r" then some (.dir (.cons "x.txt" .file .nil)) else none)
          (fun _ => []) none ⟨[], ["/zzz"], [], []⟩ "/r").1.files →
      ("/r/x.txt" : String) ≠ "/zzz") :=
  ⟨(removeScope_cascade_and_no_resurrect.1
      ⟨[], [], [⟨"/lib/a.txt", "a.txt", []⟩], []⟩ "/lib").1 ⟨"/lib/a.txt", "a.txt", []⟩,
   (removeScope_cascade_and_no_resurrect.1
      ⟨[], [], [⟨"/lib/a.txt", "a.txt", []⟩], []⟩ "/lib").2
      ⟨"/lib/a.txt", "a.txt", []⟩ (by decide) (by decide),
   fun hmem => removeScope_cascade_and_no_resurrect.2
      (fun p => if p == "/r" then some (.dir (.cons "x.txt" .file .nil)) else none)
      (fun _ => []) none ⟨[], ["/zzz"], [], []⟩ "/r" "/zzz"
      (by decide) (by decide) (by decide) ⟨"/r/x.txt", "x.txt", []⟩ hmem⟩

theorem deleteNote_id_ne (s : RootState) (nid : String) :
    ∀ m ∈ (deleteNote s nid).notes, m.id ≠ nid := by
  intro m hm
  have hb := (List.mem_filter.mp hm).2
  simpa [bne_iff_ne] using hb

/-- C8: note round-trip.  Adding a line note to a state with no note at
its (file, line) makes `getNotesForLine` return exactly that note;
updating it by id replaces the content and bumps `updatedAt` while
preserving its id and `createdAt`; deleting it by id removes it from the
note list and hence from every subsequent query (`getNotesForLine`,
`getLineNotesForFile`). -/
theorem note_roundtrip (s : RootState) (n : LineNote) (c2 : String) (now : Nat) :
    (getNotesForLine s n.filePath n.line = [] →
      getNotesForLine (addNote s n) n.filePath n.line = [n]) ∧
    ((∀ m ∈ s.notes, m.id ≠ n.id) →
      (updateNote (addNote s n) n.id c2 now).notes =
        s.notes ++ [{ n with content := c2, updatedAt := now }]) ∧
    (∀ q : String, ∀ ln : Nat,
      ∀ m ∈ getNotesForLine (deleteNote s n.id) q ln, m.id ≠ n.id) ∧
    (∀ q : String, ∀ m ∈ getLineNotesForFile (deleteNote s n.id) q, m.id ≠ n.id) ∧
    (∀ m ∈ (deleteNote s n.id).notes, m.id ≠ n.id) := by
  refine ⟨?_, ?_, ?_, ?_, deleteNote_id_ne s n.id⟩
  · intro h
    unfold getNotesForLine at h ⊢
    show (s.notes ++ [n]).filter
      (fun m => m.filePath == n.filePath && m.line == n.line) = [n]
    rw [List.filter_append, h]
    show ([n] : List LineNote).filter
      (fun m => m.filePath == n.filePath && m.line == n.line) = [n]
    simp [List.filter]
  · intro h
    show (s.notes ++ [n]).map (fun m =>
        if m.id == n.id then { m with content := c2, updatedAt := now } else m) =
      s.notes ++ [{ n with content := c2, updatedAt := now }]
    rw [List.map_append]
    have h1 : s.notes.map (fun m =>
        if m.id == n.id then { m with content := c2, updatedAt := now } else m) =
        s.notes := by
      have hpt : s.notes.map (fun m =>
          if m.id == n.id then { m with content := c2, updatedAt := now } else m) =
          s.notes.map id := by
        apply List.map_congr_left
        intro m hm
        have hne : ¬((m.id == n.id) = true) := by
          simp only [beq_iff_eq]
          exact h m hm
        rw [if_neg hne]
        rfl
      rw [hpt, List.map_id]
    have h2 : ([n] : List LineNote).map (fun m =>
        if m.id == n.id then { m with content := c2, updatedAt := now } else m) =
        [{ n with content := c2, updatedAt := now }] := by
      show [if n.id == n.id then { n with content := c2, updatedAt := now } else n] =
        [{ n with content := c2, updatedAt := now }]
      rw [if_pos (beq_self_eq_true n.id)]
    rw [h1, h2]
  · intro q ln m hm
    have hm2 : m ∈ (deleteNote s n.id).notes := (List.mem_filter.mp hm).1
    exact deleteNote_id_ne s n.id m hm2
  · intro q m hm
    have hm2 : m ∈ (deleteNote s n.id).notes := (List.mem_filter.mp hm).1
    exact deleteNote_id_ne s n.id m hm2

/-- Witness for C8: a concrete add/query and update round-trip from the
empty state. -/
theorem note_roundtrip_witness :
    getNotesForLine (addNote emptyRootState ⟨"line-5", "a.txt", 3, "c", 5, 5⟩)
        "a.txt" 3 = [⟨"line-5", "a.txt", 3, "c", 5, 5⟩] ∧
    (updateNote (addNote emptyRootState ⟨"line-5", "a.txt", 3, "c", 5, 5⟩)
        "line-5" "c2" 9).notes = [⟨"line-5", "a.txt", 3, "c2", 5, 9⟩] :=
  ⟨(note_roundtrip emptyRootState ⟨"line-5", "a.txt", 3, "c", 5, 5⟩ "c2" 9).1
      (by decide),
   (note_roundtrip emptyRootState ⟨"line-5", "a.txt", 3, "c", 5, 5⟩ "c2" 9).2.1
      (by decide)⟩

/-- C9: scope-document handling.  A line that is blank after trimming or
whose trimmed text starts with `#` or `//` is skipped; any other line is
resolved (absolute paths as-is, relative paths against the workspace
root) and added to scope; a missing document contributes nothing; and at
startup the document is consulted only when the loaded state has an empty
scope-path list — otherwise activation leaves the state untouched and the
document is read only through the explicit reload command, which invokes
the same `loadScopeFile`. -/
theorem scope_document_rules (fsys : FileSystem) (ext : Extractor)
    (root : String) (doc : Option String) (s : RootState) (k : Nat)
    (line : String) :
    ((strIsEmpty (strTrim line) || strStartsWith (strTrim line) "#" ||
        strStartsWith (strTrim line) "//") = true →
      scopeLineStep fsys ext root (s, k) line = (s, k)) ∧
    ((strIsEmpty (strTrim line) || strStartsWith (strTrim line) "#" ||
        strStartsWith (strTrim line) "//") = false →
      scopeLineStep fsys ext root (s, k) line =
        ((addToScope fsys ext (some root) s
            (if strStartsWith (strTrim line) "/" then strTrim line
             else root ++ "/" ++ strTrim line)).1,
         k + (addToScope fsys ext (some root) s
            (if strStartsWith (strTrim line) "/" then strTrim line
             else root ++ "/" ++ strTrim line)).2.length)) ∧
    (s.scopePaths = [] →
      activateScopeLoad fsys ext root doc s = (loadScopeFile fsys ext root doc s).1) ∧
    (s.scopePaths ≠ [] → activateScopeLoad fsys ext root doc s = s) ∧
    loadScopeFile fsys ext root none s = (s, 0) := by
  refine ⟨?_, ?_, ?_, ?_, rfl⟩
  · intro h
    unfold scopeLineStep
    rw [if_pos h]
  · intro h
    unfold scopeLineStep
    rw [if_neg (by simp [h])]
  · intro h
    unfold activateScopeLoad
    rw [if_pos (List.isEmpty_iff.mpr h)]
  · intro h
    unfold activateScopeLoad
    rw [if_neg (fun hx => h (List.isEmpty_iff.mp hx))]

/-- Witness for C9: a comment line is skipped, a relative line is resolved
against the root and added, the startup gate reads the document exactly
when the scope-path list is empty. -/
theorem scope_document_rules_witness :
    scopeLineStep (fun _ => none) (fun _ => []) "/r" (emptyRootState, 0)
        "  # note" = (emptyRootState, 0) ∧
    scopeLineStep (fun _ => none) (fun _ => []) "/r" (emptyRootState, 0) "a.txt" =
      ((addToScope (fun _ => none) (fun _ => []) (some "/r") emptyRootState
          (if strStartsWith (strTrim "a.txt") "/" then strTrim "a.txt"
           else "/r" ++ "/" ++ strTrim "a.txt")).1,
       0 + (addToScope (fun _ => none) (fun _ => []) (some "/r") emptyRootState
          (if strStartsWith (strTrim "a.txt") "/" then strTrim "a.txt"
           else "/r" ++ "/" ++ strTrim "a.txt")).2.length) ∧
    activateScopeLoad (fun _ => none) (fun _ => []) "/r" (some "x.txt")
        emptyRootState =
      (loadScopeFile (fun _ => none) (fun _ => []) "/r" (some "x.txt")
        emptyRootState).1 ∧
    activateScopeLoad (fun _ => none) (fun _ => []) "/r" (some "x.txt")
        ⟨["/q"], [], [], []⟩ = ⟨["/q"], [], [], []⟩ :=
  ⟨(scope_document_rules (fun _ => none) (fun _ => []) "/r" none emptyRootState 0
      "  # note").1 (by decide),
   (scope_document_rules (fun _ => none) (fun _ => []) "/r" none emptyRootState 0
      "a.txt").2.1 (by decide),
   (scope_document_rules (fun _ => none) (fun _ => []) "/r" (some "x.txt")
      emptyRootState 0 "z").2.2.1 rfl,
   (scope_document_rules (fun _ => none) (fun _ => []) "/r" (some "x.txt")
      ⟨["/q"], [], [], []⟩ 0 "z").2.2.2.1 (by decide)⟩

end AuditTracker
